import Mathlib

/-!
Shallow embedding of the color-to-sound synthesis pipeline in `src/app.py`
(`hue_to_frequency`, `generate_waveform`, `generate_sound_from_data`).
Samples are modelled as real numbers (the Python code computes with floats),
input HSV components as rationals, and the 16-bit conversion as an integer
truncation, mirroring NumPy's C-style `np.int16` cast.
-/

/-- Embeds the constant `SAMPLE_RATE = 44100` from `src/app.py`. -/
def SAMPLE_RATE : ℕ := 44100

/-- Embeds the constant `DURATION_PER_SLICE = 0.05` from `src/app.py`. -/
def DURATION_PER_SLICE : ℚ := 1/20

/-- Embeds the constant `A4 = 440.0` from `src/app.py`. -/
noncomputable def A4 : ℝ := 440

/-- Embeds the constant `C4 = A4 * (2**(-9/12))` from `src/app.py`. -/
noncomputable def C4 : ℝ := A4 * (2 : ℝ) ^ ((-9 : ℝ) / 12)

/-- Embeds `hue_to_frequency` from `src/app.py`:
`semitones = (hue / 360.0) * 12; frequency = C4 * (2**(semitones/12))`. -/
noncomputable def hue_to_frequency (hue : ℚ) : ℝ :=
  let semitones : ℝ := ((hue : ℝ) / 360) * 12
  C4 * (2 : ℝ) ^ (semitones / 12)

/-- Embeds `num_samples = int(SAMPLE_RATE * duration)` from `generate_waveform`
in `src/app.py`; Python's `int()` truncates, which for the nonnegative products
used here is the floor. -/
def numSamples (duration : ℚ) : ℕ := (⌊(SAMPLE_RATE : ℚ) * duration⌋).toNat

/-- Embeds the time axis `t = np.linspace(0, duration, num_samples, endpoint=False)`
from `generate_waveform` in `src/app.py`: the i-th instant is `i * duration / n`. -/
noncomputable def sampleInstant (duration : ℚ) (n : ℕ) (i : ℕ) : ℝ :=
  (duration : ℝ) * i / n

/-- Embeds `generate_waveform(frequency, duration, wave_type)` from `src/app.py`.
The waveform kind is a string, as in the source, compared against
`'sine'`, `'square'`, `'triangle'`, with a zero-filled fallback (`np.zeros_like(t)`). -/
noncomputable def generate_waveform (frequency : ℝ) (duration : ℚ) (wave_type : String) :
    List ℝ :=
  let n := numSamples duration
  let t : ℕ → ℝ := sampleInstant duration n
  if wave_type = "sine" then
    (List.range n).map (fun i => Real.sin (2 * Real.pi * frequency * t i))
  else if wave_type = "square" then
    (List.range n).map (fun i => Real.sign (Real.sin (2 * Real.pi * frequency * t i)))
  else if wave_type = "triangle" then
    (List.range n).map (fun i =>
      2 * |2 * (t i * frequency - (⌊t i * frequency + 1/2⌋ : ℤ))| - 1)
  else
    (List.range n).map (fun _ => (0 : ℝ))

/-- Embeds the saturation-to-timbre branch of `generate_sound_from_data` in
`src/app.py`: `if s < 0.33: 'sine' elif s < 0.67: 'triangle' else: 'square'`. -/
def waveTypeOfSaturation (s : ℚ) : String :=
  if s < 33/100 then "sine" else if s < 67/100 then "triangle" else "square"

/-- Embeds the elementwise conversion `np.int16(x * 32767)` from
`generate_sound_from_data` in `src/app.py`: NumPy's cast to a C `int16`
truncates toward zero (floor for nonnegative values, ceiling for negative ones);
given the prior normalization `|x| <= 1` no wraparound occurs. Stated
polymorphically so it can be evaluated on rationals and used on reals. -/
def int16OfSample {α : Type} [LinearOrderedField α] [FloorRing α] (x : α) : ℤ :=
  if 0 ≤ x then ⌊x * 32767⌋ else ⌈x * 32767⌉

/-- Embeds `max_amplitude = np.max(np.abs(audio_signal))` from
`generate_sound_from_data` in `src/app.py`. The fold starts at 0, which agrees
with NumPy's maximum on every nonempty list of absolute values; the source only
evaluates it under the `len(audio_signal) > 0` guard. -/
noncomputable def peak (signal : List ℝ) : ℝ :=
  signal.foldr (fun x m => max |x| m) 0

/-- Embeds the normalization step of `generate_sound_from_data` in `src/app.py`:
`if len(audio_signal) > 0: max_amplitude = np.max(np.abs(audio_signal));
if max_amplitude > 0: audio_signal /= max_amplitude`. -/
noncomputable def normalizeSignal (signal : List ℝ) : List ℝ :=
  if 0 < signal.length then
    if 0 < peak signal then signal.map (fun x => x / peak signal) else signal
  else signal

/-- Embeds the loop body of `generate_sound_from_data` in `src/app.py` for one
`(h, s, v)` triple: `freq = hue_to_frequency(h)`, the saturation branch picks
the waveform kind, `amplitude = v * 0.5`, and the synthesized segment is scaled
elementwise by the amplitude (`segment * amplitude`). -/
noncomputable def sampleSegment (hsv : ℚ × ℚ × ℚ) : List ℝ :=
  let freq := hue_to_frequency hsv.1
  let wave_type := waveTypeOfSaturation hsv.2.1
  let amplitude : ℝ := (hsv.2.2 : ℝ) * (1/2)
  (generate_waveform freq DURATION_PER_SLICE wave_type).map (fun x => x * amplitude)

/-- Embeds the synthesis pipeline of `generate_sound_from_data` in `src/app.py`:
the per-sample segments are concatenated in input order (the iterated
`np.concatenate`), the result is normalized, and each sample is converted to a
16-bit integer (`np.int16(audio_signal * 32767)`). The final WAV write and the
returned file name are I/O and are not modelled. -/
noncomputable def generate_sound_from_data (drawing_data : List (ℚ × ℚ × ℚ)) :
    List ℤ :=
  let audio_signal : List ℝ := (drawing_data.map sampleSegment).flatten
  (normalizeSignal audio_signal).map int16OfSample

/-! Helper lemmas about the embedded definitions. -/

lemma numSamples_slice : numSamples DURATION_PER_SLICE = 2205 := by
  unfold numSamples SAMPLE_RATE DURATION_PER_SLICE
  norm_num
  rfl

lemma generate_waveform_length (f : ℝ) (d : ℚ) (w : String) :
    (generate_waveform f d w).length = numSamples d := by
  unfold generate_waveform
  split_ifs <;> simp

lemma peak_nonneg (sig : List ℝ) : 0 ≤ peak sig := by
  induction sig with
  | nil => simp [peak]
  | cons a l ih => simp only [peak, List.foldr_cons] at *; exact le_max_of_le_right ih

lemma abs_le_peak {x : ℝ} {sig : List ℝ} (hx : x ∈ sig) : |x| ≤ peak sig := by
  induction sig with
  | nil => simp at hx
  | cons a l ih =>
    simp only [peak, List.foldr_cons] at *
    rcases List.mem_cons.mp hx with h | h
    · exact h ▸ le_max_left _ _
    · exact le_max_of_le_right (ih h)

lemma peak_map_div (sig : List ℝ) {c : ℝ} (hc : 0 < c) :
    peak (sig.map (fun x => x / c)) = peak sig / c := by
  induction sig with
  | nil => simp [peak]
  | cons a l ih =>
    simp only [peak, List.map_cons, List.foldr_cons] at *
    rw [ih, abs_div, abs_of_pos hc, max_div_div_right hc.le]

lemma normalizeSignal_of_pos (sig : List ℝ) (h1 : 0 < sig.length)
    (h2 : 0 < peak sig) :
    normalizeSignal sig = sig.map (fun x => x / peak sig) := by
  unfold normalizeSignal
  rw [if_pos h1, if_pos h2]

lemma normalizeSignal_length (sig : List ℝ) :
    (normalizeSignal sig).length = sig.length := by
  unfold normalizeSignal
  split_ifs <;> simp

lemma abs_le_one_of_mem_normalize {x : ℝ} {sig : List ℝ}
    (hx : x ∈ normalizeSignal sig) : |x| ≤ 1 := by
  unfold normalizeSignal at hx
  split_ifs at hx with hlen hpk
  · rcases List.mem_map.mp hx with ⟨y, hy, rfl⟩
    rw [abs_div, abs_of_pos hpk]
    exact div_le_one_of_le₀ (abs_le_peak hy) (peak_nonneg sig)
  · push_neg at hpk
    have h0 : peak sig = 0 := le_antisymm hpk (peak_nonneg sig)
    have := abs_le_peak hx
    rw [h0] at this
    linarith [abs_nonneg x]
  · have hnil : sig = [] := List.length_eq_zero.mp (by omega)
    subst hnil
    simp at hx

lemma int16OfSample_bounds {α : Type} [LinearOrderedField α] [FloorRing α]
    {x : α} (h : |x| ≤ 1) :
    -32767 ≤ int16OfSample x ∧ int16OfSample x ≤ 32767 := by
  rw [abs_le] at h
  unfold int16OfSample
  split_ifs with hx
  · constructor
    · have : (0:ℤ) ≤ ⌊x * 32767⌋ := Int.floor_nonneg.mpr (by positivity)
      omega
    · have hle : x * 32767 ≤ ((32767 : ℤ) : α) := by push_cast; nlinarith [h.2]
      have := Int.floor_le_floor hle
      rwa [Int.floor_intCast] at this
  · push_neg at hx
    constructor
    · have hge : ((-32767 : ℤ) : α) ≤ x * 32767 := by push_cast; nlinarith [h.1]
      have := Int.ceil_le_ceil hge
      rwa [Int.ceil_intCast] at this
    · have hle : x * 32767 ≤ ((0 : ℤ) : α) := by push_cast; nlinarith
      have : ⌈x * 32767⌉ ≤ (0:ℤ) := Int.ceil_le.mpr hle
      omega

lemma sampleSegment_length (hsv : ℚ × ℚ × ℚ) :
    (sampleSegment hsv).length = 2205 := by
  unfold sampleSegment
  rw [List.length_map, generate_waveform_length, numSamples_slice]

lemma generate_sound_length (drawing_data : List (ℚ × ℚ × ℚ)) :
    (generate_sound_from_data drawing_data).length = drawing_data.length * 2205 := by
  unfold generate_sound_from_data
  rw [List.length_map, normalizeSignal_length]
  induction drawing_data with
  | nil => simp
  | cons a l ih =>
    simp only [List.map_cons, List.flatten_cons, List.length_append, ih,
      sampleSegment_length, List.length_cons]
    ring

lemma normalizeSignal_of_peak_zero {sig : List ℝ} (h : peak sig = 0) :
    normalizeSignal sig = sig := by
  unfold normalizeSignal
  split_ifs with h1 h2
  · rw [h] at h2; exact absurd h2 (lt_irrefl 0)
  · rfl
  · rfl

lemma peak_replicate_zero (n : ℕ) : peak (List.replicate n (0:ℝ)) = 0 := by
  induction n with
  | zero => simp [peak]
  | succ k ih =>
    simp only [peak, List.replicate_succ, List.foldr_cons] at *
    rw [ih]
    simp

lemma int16OfSample_zero : int16OfSample ((0:ℝ)) = 0 := by
  unfold int16OfSample
  rw [if_pos le_rfl]
  simp

lemma sampleSegment_silent (h s : ℚ) : sampleSegment (h, s, 0) =
    List.replicate 2205 (0:ℝ) := by
  unfold sampleSegment
  have hlen := generate_waveform_length (hue_to_frequency h) DURATION_PER_SLICE
    (waveTypeOfSaturation s)
  rw [numSamples_slice] at hlen
  simp only [Rat.cast_zero, zero_mul, mul_zero]
  rw [List.map_const', hlen]

lemma generate_sound_silent :
    generate_sound_from_data [(0, 0, 0)] = List.replicate 2205 (0:ℤ) := by
  unfold generate_sound_from_data
  simp only [List.map_cons, List.map_nil, List.flatten_cons, List.flatten_nil,
    List.append_nil]
  rw [sampleSegment_silent 0 0, normalizeSignal_of_peak_zero (peak_replicate_zero 2205),
    List.map_replicate, int16OfSample_zero]

lemma hue_to_frequency_eval (hue : ℚ) :
    hue_to_frequency hue = C4 * (2:ℝ) ^ ((((hue:ℝ)/360)*12)/12) := rfl

/-! Claim theorems. -/

/-- C1. The spec claims `hue_to_frequency` is periodic with period 360, with
hue 0 and hue 360 both mapping to C4 (as the function's own docstring also
states). The code has no wraparound: hue 360 yields twice the hue-0 frequency
(C5, one octave above C4), so the periodicity claim fails at hue = 360. -/
theorem hue360_octave_bug :
    hue_to_frequency 360 = 2 * hue_to_frequency 0 ∧
      hue_to_frequency 360 ≠ hue_to_frequency 0 ∧
      hue_to_frequency 0 = C4 := by
  have hC4 : 0 < C4 := by
    unfold C4 A4
    positivity
  have h0 : hue_to_frequency 0 = C4 := by
    rw [hue_to_frequency_eval]
    norm_num
  have h360 : hue_to_frequency 360 = 2 * C4 := by
    rw [hue_to_frequency_eval]
    rw [show ((((360:ℚ):ℝ)/360)*12)/12 = 1 by push_cast; norm_num]
    rw [Real.rpow_one]
    ring
  refine ⟨by rw [h0, h360], ?_, h0⟩
  rw [h0, h360]
  intro h
  nlinarith

/-- C2. The saturation-to-timbre selection partitions saturation into three
bins with half-open lower and inclusive upper boundaries: `[0, 0.33)` gives
sine, `[0.33, 0.67)` gives triangle, `[0.67, 1]` gives square, and the spec's
sample points `0.329`, `0.33`, `0.669`, `0.67`, `1.0` land as stated. -/
theorem saturation_bins_spec (s : ℚ) :
    (0 ≤ s → s < 33/100 → waveTypeOfSaturation s = "sine") ∧
    (33/100 ≤ s → s < 67/100 → waveTypeOfSaturation s = "triangle") ∧
    (67/100 ≤ s → s ≤ 1 → waveTypeOfSaturation s = "square") ∧
    waveTypeOfSaturation (329/1000) = "sine" ∧
    waveTypeOfSaturation (33/100) = "triangle" ∧
    waveTypeOfSaturation (669/1000) = "triangle" ∧
    waveTypeOfSaturation (67/100) = "square" ∧
    waveTypeOfSaturation 1 = "square" := by
  refine ⟨?_, ?_, ?_, by norm_num [waveTypeOfSaturation], by norm_num [waveTypeOfSaturation],
    by norm_num [waveTypeOfSaturation], by norm_num [waveTypeOfSaturation],
    by norm_num [waveTypeOfSaturation]⟩ <;>
    · intro h1 h2
      unfold waveTypeOfSaturation
      split_ifs
      all_goals first | rfl | linarith

/-- Witness for C2 at saturation 0.33: the hypotheses of the triangle bin hold
and the selection returns triangle. -/
theorem saturation_bins_spec_witness :
    (33:ℚ)/100 ≤ 33/100 ∧ (33:ℚ)/100 < 67/100 ∧
      waveTypeOfSaturation (33/100) = "triangle" :=
  ⟨le_refl _, by norm_num,
    (saturation_bins_spec (33/100)).2.1 (le_refl _) (by norm_num)⟩

/-- C3, counterexample. The spec claims the 16-bit conversion rounds to the
nearest integer; the code's `np.int16` cast truncates toward zero. At the
normalized sample 0.7 the product is 22936.9: truncation gives 22936 while any
round-to-nearest rule gives 22937. -/
theorem int16_not_round_counterexample :
    int16OfSample ((7/10 : ℚ)) = 22936 ∧ round ((7/10 : ℚ) * 32767) = 22937 ∧
      int16OfSample ((7/10 : ℚ)) ≠ round ((7/10 : ℚ) * 32767) := by
  refine ⟨by norm_num [int16OfSample], by norm_num [round_eq], ?_⟩
  norm_num [int16OfSample, round_eq]

/-- C3, amended. The 16-bit conversion computes the truncation toward zero of
`normalizedSample * 32767`: for every sample with absolute value at most 1 the
result has the sign of the product, its magnitude does not exceed the product's
magnitude, and it differs from the product by less than 1. -/
theorem int16_truncates_toward_zero {x : ℝ} (h : |x| ≤ 1) :
    |((int16OfSample x : ℤ) : ℝ)| ≤ |x * 32767| ∧
      |x * 32767| < |((int16OfSample x : ℤ) : ℝ)| + 1 ∧
      (0 ≤ x → 0 ≤ int16OfSample x) ∧ (x ≤ 0 → int16OfSample x ≤ 0) := by
  unfold int16OfSample
  split_ifs with hx
  · have hy : (0:ℝ) ≤ x * 32767 := by positivity
    have hfl : (0:ℤ) ≤ ⌊x * 32767⌋ := Int.floor_nonneg.mpr hy
    have h1 : ((⌊x * 32767⌋ : ℤ) : ℝ) ≤ x * 32767 := Int.floor_le _
    have h2 : x * 32767 < ⌊x * 32767⌋ + 1 := Int.lt_floor_add_one _
    rw [abs_of_nonneg hy, abs_of_nonneg (by exact_mod_cast hfl : (0:ℝ) ≤ _)]
    exact ⟨h1, h2, fun _ => hfl, fun hx0 => by
      have : x = 0 := le_antisymm hx0 hx
      simp [this]⟩
  · push_neg at hx
    have hy : x * 32767 < 0 := by nlinarith
    have hcl : ⌈x * 32767⌉ ≤ (0:ℤ) := Int.ceil_le.mpr (by exact_mod_cast hy.le)
    have h1 : x * 32767 ≤ ((⌈x * 32767⌉ : ℤ) : ℝ) := Int.le_ceil _
    have h2 : ((⌈x * 32767⌉ : ℤ) : ℝ) - 1 < x * 32767 := by
      have := Int.ceil_lt_add_one (x * 32767)
      linarith
    rw [abs_of_neg hy, abs_of_nonpos (by exact_mod_cast hcl : ((⌈x * 32767⌉ : ℤ) : ℝ) ≤ 0)]
    exact ⟨by linarith, by linarith, fun hx0 => absurd hx0 (not_le.mpr hx), fun _ => hcl⟩

/-- Witness for the amended C3 at the normalized sample 0.7. -/
theorem int16_truncates_toward_zero_witness :
    |(7/10 : ℝ)| ≤ 1 ∧
      |((int16OfSample ((7/10 : ℝ)) : ℤ) : ℝ)| ≤ |(7/10 : ℝ) * 32767| :=
  have habs : |(7/10 : ℝ)| ≤ 1 := by rw [abs_le]; constructor <;> norm_num
  ⟨habs, (int16_truncates_toward_zero habs).1⟩

/-- C4. Every 16-bit sample produced by the pipeline lies in the range
`[-32767, 32767]`; in particular -32768 never occurs, because normalization
bounds every sample's absolute value by 1 before the conversion. -/
theorem output_samples_in_range (drawing_data : List (ℚ × ℚ × ℚ)) (q : ℤ)
    (hq : q ∈ generate_sound_from_data drawing_data) :
    -32767 ≤ q ∧ q ≤ 32767 := by
  unfold generate_sound_from_data at hq
  rcases List.mem_map.mp hq with ⟨x, hx, rfl⟩
  exact int16OfSample_bounds (abs_le_one_of_mem_normalize hx)

/-- Witness for C4: the sample 0 occurs in the output for the silent input
`[(0, 0, 0)]` and lies in the range. -/
theorem output_samples_in_range_witness :
    (0:ℤ) ∈ generate_sound_from_data [(0, 0, 0)] ∧
      -32767 ≤ (0:ℤ) ∧ (0:ℤ) ≤ 32767 :=
  have hmem : (0:ℤ) ∈ generate_sound_from_data [(0, 0, 0)] := by
    rw [generate_sound_silent]
    exact List.mem_replicate.mpr ⟨by norm_num, rfl⟩
  ⟨hmem, output_samples_in_range [(0, 0, 0)] 0 hmem⟩

/-- C5. For every frequency and every waveform kind, known or not, the
synthesizer at duration 0.05 s produces exactly `int(44100 * 0.05) = 2205`
samples; the time axis consists of evenly spaced instants `i * duration / 2205`
lying in `[0, duration)`, the right endpoint excluded. -/
theorem segment_length_and_time_axis (f : ℝ) (w : String) :
    (generate_waveform f DURATION_PER_SLICE w).length = 2205 ∧
      numSamples DURATION_PER_SLICE = 2205 ∧
      (∀ i : ℕ, i < 2205 →
        0 ≤ sampleInstant DURATION_PER_SLICE 2205 i ∧
          sampleInstant DURATION_PER_SLICE 2205 i < (DURATION_PER_SLICE : ℝ)) ∧
      (∀ i : ℕ, i + 1 < 2205 →
        sampleInstant DURATION_PER_SLICE 2205 (i + 1) -
            sampleInstant DURATION_PER_SLICE 2205 i =
          (DURATION_PER_SLICE : ℝ) / 2205) := by
  have hd : (DURATION_PER_SLICE : ℝ) = 1/20 := by
    unfold DURATION_PER_SLICE
    push_cast
    norm_num
  refine ⟨by rw [generate_waveform_length, numSamples_slice], numSamples_slice, ?_, ?_⟩
  · intro i hi
    unfold sampleInstant
    rw [hd]
    push_cast
    constructor
    · positivity
    · rw [div_lt_iff₀ (by norm_num : (0:ℝ) < 2205)]
      have : (i:ℝ) < 2205 := by exact_mod_cast hi
      nlinarith
  · intro i _
    unfold sampleInstant
    rw [hd]
    push_cast
    ring

/-- Witness for C5 at frequency 0, the sine kind, and the instant i = 0. -/
theorem segment_length_and_time_axis_witness :
    (0:ℕ) < 2205 ∧
      (0 ≤ sampleInstant DURATION_PER_SLICE 2205 0 ∧
        sampleInstant DURATION_PER_SLICE 2205 0 < (DURATION_PER_SLICE : ℝ)) :=
  ⟨by norm_num, (segment_length_and_time_axis 0 "sine").2.2.1 0 (by norm_num)⟩

/-- C6. The assembled signal and the encoded output have exactly
`len(drawing_data) * 2205` samples, the per-segment lengths summed; the spec's
three-sample scenario yields 6615 samples. -/
theorem output_length_spec :
    (∀ drawing_data : List (ℚ × ℚ × ℚ),
      (generate_sound_from_data drawing_data).length = drawing_data.length * 2205) ∧
      (generate_sound_from_data
        [(0, 1/10, 1), (180, 1/2, 1), (300, 9/10, 1)]).length = 6615 := by
  refine ⟨generate_sound_length, ?_⟩
  rw [generate_sound_length]
  rfl

/-- C7. When a signal's peak is 0 the normalization division is skipped and the
signal is left unchanged; on the silent input `[(0, 0, 0)]` (value 0 gives
amplitude 0) the pipeline produces an all-zero output of 2205 samples. -/
theorem silence_handling (sig : List ℝ) (hpk : peak sig = 0) :
    normalizeSignal sig = sig ∧
      generate_sound_from_data [(0, 0, 0)] = List.replicate 2205 (0:ℤ) :=
  ⟨normalizeSignal_of_peak_zero hpk, generate_sound_silent⟩

/-- Witness for C7 on the one-sample zero signal. -/
theorem silence_handling_witness :
    peak [(0:ℝ)] = 0 ∧ normalizeSignal [(0:ℝ)] = [(0:ℝ)] :=
  have hpk : peak [(0:ℝ)] = 0 := by simp [peak]
  ⟨hpk, (silence_handling [(0:ℝ)] hpk).1⟩

/-- C8. Normalization is idempotent: for a non-empty signal with nonzero peak,
normalizing an already-normalized signal changes nothing and the normalized
signal's peak is exactly 1. -/
theorem normalization_idempotent (sig : List ℝ) (hne : sig ≠ [])
    (hpk : peak sig ≠ 0) :
    normalizeSignal (normalizeSignal sig) = normalizeSignal sig ∧
      peak (normalizeSignal sig) = 1 := by
  have hlen : 0 < sig.length := List.length_pos.mpr hne
  have hpos : 0 < peak sig := lt_of_le_of_ne (peak_nonneg sig) (Ne.symm hpk)
  have hnorm := normalizeSignal_of_pos sig hlen hpos
  have hpk1 : peak (normalizeSignal sig) = 1 := by
    rw [hnorm, peak_map_div sig hpos, div_self (ne_of_gt hpos)]
  refine ⟨?_, hpk1⟩
  have hlen2 : 0 < (normalizeSignal sig).length := by
    rw [hnorm]; simpa using hlen
  have hpos2 : 0 < peak (normalizeSignal sig) := by rw [hpk1]; norm_num
  have heq := normalizeSignal_of_pos (normalizeSignal sig) hlen2 hpos2
  rw [heq, hpk1]
  simp

/-- Witness for C8 on the one-sample signal `[1]`. -/
theorem normalization_idempotent_witness :
    ([(1:ℝ)] ≠ []) ∧ peak [(1:ℝ)] ≠ 0 ∧
      normalizeSignal (normalizeSignal [(1:ℝ)]) = normalizeSignal [(1:ℝ)] ∧
      peak (normalizeSignal [(1:ℝ)]) = 1 :=
  have hne : ([(1:ℝ)] ≠ []) := by simp
  have hpk : peak [(1:ℝ)] ≠ 0 := by norm_num [peak]
  have h := normalization_idempotent [(1:ℝ)] hne hpk
  ⟨hne, hpk, h.1, h.2⟩

/-- C9. Calling the synthesizer with a waveform kind other than sine, square,
or triangle returns a zero-filled segment of the same length a known kind
would produce. -/
theorem unknown_wave_type_zero_fill (f : ℝ) (d : ℚ) (w : String)
    (h1 : w ≠ "sine") (h2 : w ≠ "square") (h3 : w ≠ "triangle") :
    generate_waveform f d w = List.replicate (numSamples d) 0 ∧
      (generate_waveform f d w).length = (generate_waveform f d "sine").length := by
  constructor
  · unfold generate_waveform
    rw [if_neg h1, if_neg h2, if_neg h3, List.map_const', List.length_range]
  · rw [generate_waveform_length, generate_waveform_length]

/-- Witness for C9 at the unknown kind "noise". -/
theorem unknown_wave_type_zero_fill_witness :
    (("noise" : String) ≠ "sine" ∧ ("noise" : String) ≠ "square" ∧
        ("noise" : String) ≠ "triangle") ∧
      generate_waveform 0 DURATION_PER_SLICE "noise" =
        List.replicate (numSamples DURATION_PER_SLICE) 0 :=
  ⟨⟨by decide, by decide, by decide⟩,
    (unknown_wave_type_zero_fill 0 DURATION_PER_SLICE "noise"
      (by decide) (by decide) (by decide)).1⟩

/-- C10. The synthesis pipeline is deterministic: runs on equal input
sequences produce identical 16-bit sample sequences. -/
theorem pipeline_deterministic (d1 d2 : List (ℚ × ℚ × ℚ)) (h : d1 = d2) :
    generate_sound_from_data d1 = generate_sound_from_data d2 := by
  rw [h]

/-- Witness for C10 on the empty input. -/
theorem pipeline_deterministic_witness :
    ([] : List (ℚ × ℚ × ℚ)) = ([] : List (ℚ × ℚ × ℚ)) ∧
      generate_sound_from_data [] = generate_sound_from_data [] :=
  ⟨rfl, pipeline_deterministic [] [] rfl⟩
